import Mathlib

/-!
# CS111 Lab 4c: the command/report engine of `lab4c_tcp.c` and `lab4c_tls.c`

A shallow embedding of the parts of the two programs that are the same in
both files: `log_and_print`, `button_shutdown` / `shut_down`,
`parse_reading`, `parse_option`, and the body of the `for (;;)` loop of
`main` (the report test and the lexer).

Conventions of the embedding

* A `char` is its byte value, a natural number. A C string is the list of its
  bytes before the terminating NUL.
* A pointer into the input buffer is the list of the bytes from the pointer
  up to (excluding) the terminator that `main` stores at `buffer[read_rc]`;
  reading at the end of the list reads that terminator.
* The globals `opt_period`, `opt_scale`, `opt_log`, `opt_report`,
  `last_report` are the fields of `Session`, C `int` / `time_t` being `Int`.
  The stream `opt_file` is the sequence of operations performed on it, and
  the transport (standard output, respectively the TLS connection) is the
  sequence of bytes sent on it.
* `exit`, undefined behaviour and fuel exhaustion are explicit outcomes.
-/

namespace Lab4c

/-! ## Bytes and strings -/

/-- The bytes of an ASCII string literal. -/
def bytes (s : String) : List Nat := s.toList.map Char.toNat

/-- The C string that starts at a pointer: the bytes before the first NUL. -/
def cstr (p : List Nat) : List Nat := p.takeWhile (fun c => c != 0)

/-- The byte read through a pointer, `*p`; at the end of the buffer
contents this is the terminator stored by `buffer[read_rc] = 0`. -/
def deref (p : List Nat) : Nat := p.headD 0

/-- Library `strstr(haystack, needle)`: the offset of the first occurrence
of `needle` in `haystack`, or `none` for a NULL result. -/
def strstr : List Nat → List Nat → Option Nat
  | [], needle => if needle = [] then some 0 else none
  | c :: cs, needle =>
    if needle.isPrefixOf (c :: cs) then some 0
    else (strstr cs needle).map (fun n => n + 1)

/-- Library `isspace` in the C locale: space, `\t`, `\n`, `\v`, `\f`, `\r`. -/
def isspace (c : Nat) : Bool := c == 32 || (decide (9 ≤ c) && decide (c ≤ 13))

/-- Library `isdigit`. -/
def isdigit (c : Nat) : Bool := decide (48 ≤ c) && decide (c ≤ 57)

/-- The digit loop of `strtol` in base 10: accumulate while digits last. -/
def digitsValue : Nat → List Nat → Nat
  | acc, [] => acc
  | acc, c :: cs => if isdigit c then digitsValue (acc * 10 + (c - 48)) cs else acc

/-- The mathematical value `strtol(s, NULL, 10)` reads: leading white space
is skipped, one optional sign is taken, then the digits. -/
def strtol10 (s : List Nat) : Int :=
  match s.dropWhile isspace with
  | 45 :: r => - (digitsValue 0 r : Int)
  | 43 :: r => (digitsValue 0 r : Int)
  | r => (digitsValue 0 r : Int)

/-- Saturation of `strtol` to the range of a 64-bit `long`. -/
def clampLong (v : Int) : Int := max (-(2 : Int) ^ 63) (min v ((2 : Int) ^ 63 - 1))

/-- Conversion of a `long` to a 32-bit `int` (two's complement wrap). -/
def wrapInt (v : Int) : Int := (v + (2 : Int) ^ 31) % (2 : Int) ^ 32 - (2 : Int) ^ 31

/-- Library `atoi(s)`, which is `(int) strtol(s, NULL, 10)`. For a value in
the range of `int` this is the value read. Outside that range ISO C leaves
the result undefined; the saturation and wrap follow glibc on an LP64
platform. -/
def atoi (s : List Nat) : Int := wrapInt (clampLong (strtol10 s))

/-- The decimal digits of a natural number, as bytes. -/
def decimal (n : Nat) : List Nat := (Nat.toDigits 10 n).map Char.toNat

/-- The conversion `%02d` of `sprintf`: at least two characters, padded with
zeros on the left; a minus sign counts as one of them. -/
def fmt02d (v : Int) : List Nat :=
  if v < 0 then 45 :: decimal v.natAbs
  else if v < 10 then 48 :: decimal v.natAbs
  else decimal v.natAbs

/-! ## Program state -/

/-- The fields of `struct tm` that the program reads after `localtime`. -/
structure Tm where
  tm_hour : Int
  tm_min : Int
  tm_sec : Int
  deriving DecidableEq, Repr

/-- An operation on the stream `opt_file`. `write` is one `fprintf`
followed by its `fflush`; `close` is `fclose`. -/
inductive FileOp where
  | write (data : List Nat)
  | close
  deriving DecidableEq, Repr

/-- The global variables of the program and the two output channels. -/
structure Session where
  opt_period : Int
  opt_scale : Int
  opt_log : Int
  opt_report : Int
  last_report : Int
  opt_file : List FileOp
  transport : List Nat
  deriving DecidableEq, Repr

/-- How a piece of code ends. -/
inductive Outcome (σ : Type) where
  | running (s : σ)
  | exited (code : Int) (s : σ)
  | undefined
  | outOfFuel
  deriving DecidableEq, Repr

/-- The session a piece of code leaves behind, when it returned or called
`exit`. -/
def Outcome.final {σ : Type} : Outcome σ → Option σ
  | Outcome.running s => some s
  | Outcome.exited _ s => some s
  | Outcome.undefined => none
  | Outcome.outOfFuel => none

/-- The globals as initialised at their declarations, before `main` runs;
`last_report` is given by the first `time(&last_report)`. -/
def initial (now : Int) : Session :=
  { opt_period := 1, opt_scale := 0, opt_log := 0, opt_report := 1,
    last_report := now, opt_file := [], transport := [] }

/-! ## `log_and_print`, `shut_down`, `parse_option` -/

/-- Source `log_and_print`: the line and a newline go to `opt_file` when
`opt_log != 0`, and always to the transport (`stdout` in `lab4c_tcp.c`,
`SSL_write` in `lab4c_tls.c`, which also echoes the line on `stderr`). -/
def log_and_print (line : List Nat) (s : Session) : Session :=
  let s1 := if s.opt_log ≠ 0 then
      { s with opt_file := s.opt_file ++ [FileOp.write (line ++ [10])] }
    else s
  { s1 with transport := s1.transport ++ (line ++ [10]) }

/-- The text `sprintf(temp, "%02d:%02d:%02d SHUTDOWN", ...)` builds. -/
def shutdownLine (time_info : Tm) : List Nat :=
  fmt02d time_info.tm_hour ++ [58] ++ fmt02d time_info.tm_min ++ [58] ++
    fmt02d time_info.tm_sec ++ bytes " SHUTDOWN"

/-- Source `button_shutdown` (`lab4c_tcp.c`) and `shut_down`
(`lab4c_tls.c`): print the shutdown line, close `opt_file` when logging,
release the devices (and, in `lab4c_tls.c`, shut the TLS connection down),
`exit(0)`. `time_info` is `localtime(&time_now.tv_sec)`. -/
def shut_down (time_info : Tm) (s : Session) : Outcome Session :=
  let s1 := log_and_print (shutdownLine time_info) s
  let s2 := if s1.opt_log ≠ 0 then { s1 with opt_file := s1.opt_file ++ [FileOp.close] } else s1
  Outcome.exited 0 s2

/-- Source `parse_option`. The command is first written to `opt_file` when
`opt_log != 0`, then dispatched. In the last branch `found_period += 4`
changes a local pointer that is not read again, so that branch leaves the
globals as they are. -/
def parse_option (time_info : Tm) (option_string : List Nat) (s : Session) : Outcome Session :=
  let s1 := if s.opt_log ≠ 0 then
      { s with opt_file := s.opt_file ++ [FileOp.write (option_string ++ [10])] }
    else s
  if option_string = bytes "SCALE=F" then Outcome.running { s1 with opt_scale := 0 }
  else if option_string = bytes "SCALE=C" then Outcome.running { s1 with opt_scale := 1 }
  else if option_string = bytes "STOP" then Outcome.running { s1 with opt_report := 0 }
  else if option_string = bytes "START" then Outcome.running { s1 with opt_report := 1 }
  else if option_string = bytes "OFF" then shut_down time_info s1
  else
    match strstr option_string (bytes "PERIOD=") with
    | some found_period =>
      Outcome.running { s1 with opt_period := atoi (option_string.drop (found_period + 7)) }
    | none =>
      match strstr option_string (bytes "LOG ") with
      | some _ => Outcome.running s1
      | none => Outcome.running s1

/-! ## The lexer of `main` -/

/-- The loop `while (*head == ' ' || *head == '\t') head++;`. -/
def skipBlanks (head : List Nat) : List Nat :=
  head.dropWhile (fun c => c == 32 || c == 9)

/-- The loop `while (*head != '\0') ...` of `main`, over the function it
calls on every command. `strstr(head, "\n")` searches the C string at
`head`; a NULL result makes `tail - head` undefined. `strncpy` and the store
of the terminator make `arg_buffer` the C string of the `size` bytes at
`head`. The first argument bounds the number of iterations. -/
def lexLoop {σ : Type} (handler : List Nat → σ → Outcome σ) :
    Nat → List Nat → σ → Outcome σ
  | 0, _, _ => Outcome.outOfFuel
  | fuel + 1, head, s =>
    if deref head = 0 then Outcome.running s
    else
      let head1 := skipBlanks head
      match strstr (cstr head1) [10] with
      | none => Outcome.undefined
      | some size =>
        let arg_buffer := cstr (head1.take size)
        match handler arg_buffer s with
        | Outcome.running s1 => lexLoop handler fuel (head1.drop (size + 1)) s1
        | o => o

/-- The lexer of `main` on the `read_rc` bytes just read: `head` starts at
`&buffer[0]` and every command goes to `parse_option`. Every iteration
moves `head` forward by at least one byte, so `read_rc + 1` iterations
are enough. -/
def lex_input (time_info : Tm) (chunk : List Nat) (s : Session) : Outcome Session :=
  lexLoop (parse_option time_info) (chunk.length + 1) chunk s

/-- A handler that also records each argument it is called with. -/
def recording {σ : Type} (handler : List Nat → σ → Outcome σ) :
    List Nat → σ × List (List Nat) → Outcome (σ × List (List Nat))
  | arg, (s, calls) =>
    match handler arg s with
    | Outcome.running s1 => Outcome.running (s1, calls ++ [arg])
    | Outcome.exited code s1 => Outcome.exited code (s1, calls ++ [arg])
    | Outcome.undefined => Outcome.undefined
    | Outcome.outOfFuel => Outcome.outOfFuel

/-- The strings the lexer of `main` hands to `parse_option` for a chunk, in
call order, when the loop ends or the process exits; `none` when the loop
runs into undefined behaviour. -/
def lex_calls (time_info : Tm) (chunk : List Nat) (s : Session) : Option (List (List Nat)) :=
  (lexLoop (recording (parse_option time_info)) (chunk.length + 1) chunk (s, [])).final.map
    Prod.snd

/-! ## `parse_reading` and the report test of `main` -/

/-- The arithmetic of C `double` that `parse_reading` and the report line
use, kept abstract: `lit q` is the constant written as the decimal `q`,
`ofInt` the conversion from `int`, `fmt1` the text `%.1f` prints for the
value after it has been stored in a `float`. -/
structure DoubleArith (D : Type) where
  lit : ℚ → D
  ofInt : Int → D
  add : D → D → D
  sub : D → D → D
  mul : D → D → D
  div : D → D → D
  log : D → D
  fmt1 : D → List Nat

/-- Source `parse_reading`, reading the global `opt_scale`. -/
def parse_reading {D : Type} (A : DoubleArith D) (opt_scale : Int) (reading : Int) : D :=
  let B := A.lit 4275
  let R0 := A.lit 100000
  let t := A.sub (A.div (A.lit 1023) (A.ofInt reading)) (A.lit 1)
  let t := A.mul R0 t
  let log_result := A.log (A.div t R0)
  let temperature :=
    A.sub (A.div (A.lit 1) (A.add (A.div log_result B) (A.div (A.ofInt 1) (A.lit (29815 / 100)))))
      (A.lit (27315 / 100))
  if opt_scale = 0 then A.add (A.div (A.mul temperature (A.lit 9)) (A.lit 5)) (A.ofInt 32)
  else temperature

/-- What one iteration of the `for (;;)` loop of `main` reads from its
environment before the report test: `current` from `time(&current)`,
`time_info` from `localtime(&time_now.tv_sec)`, the sensor value, and `now`
from the later `time(&last_report)`. -/
structure Tick where
  current : Int
  time_info : Tm
  sensor_reading : Int
  now : Int
  deriving DecidableEq, Repr

/-- The text `sprintf(temp, "%02d:%02d:%02d %.1f", ...)` builds. -/
def reportLine {D : Type} (A : DoubleArith D) (k : Tick) (opt_scale : Int) : List Nat :=
  fmt02d k.time_info.tm_hour ++ [58] ++ fmt02d k.time_info.tm_min ++ [58] ++
    fmt02d k.time_info.tm_sec ++ [32] ++ A.fmt1 (parse_reading A opt_scale k.sensor_reading)

/-- The report step at the top of the loop body of `main`. Both operands of
`difftime(current, last_report) >= (double) opt_period` are whole numbers of
seconds, so the test is the integer comparison. -/
def report_tick {D : Type} (A : DoubleArith D) (k : Tick) (s : Session) : Session :=
  if s.opt_report = 1 ∧ s.opt_period ≤ k.current - s.last_report then
    let s1 := log_and_print (reportLine A k s.opt_scale) s
    { s1 with last_report := k.now }
  else s

/-- Consecutive iterations of the loop of `main` during which `poll` reports
no input: only the report step runs. -/
def run_ticks {D : Type} (A : DoubleArith D) : List Tick → Session → Session
  | [], s => s
  | k :: ks, s => run_ticks A ks (report_tick A k s)

/-- Exact rational arithmetic with `log x` replaced by `x - 1`, used to run
the definitions on sample values. `fmt1` rounds to one decimal. -/
def ratArith : DoubleArith ℚ where
  lit := fun q => q
  ofInt := fun i => (i : ℚ)
  add := fun a b => a + b
  sub := fun a b => a - b
  mul := fun a b => a * b
  div := fun a b => a / b
  log := fun a => a - 1
  fmt1 := fun a =>
    let t : Int := Rat.floor (a * 10 + 1 / 2)
    (if t < 0 then [45] else []) ++ decimal (t.natAbs / 10) ++ [46] ++ decimal (t.natAbs % 10)

/-! ## Reference notions used to state the properties -/

/-- Feeding a list of commands to a handler, in order, until one of them
does not return. -/
def runCommands {σ : Type} (handler : List Nat → σ → Outcome σ) :
    List (List Nat) → σ → Outcome σ
  | [], s => Outcome.running s
  | c :: cs, s =>
    match handler c s with
    | Outcome.running s1 => runCommands handler cs s1
    | o => o

/-- A string with its leading spaces and tabs removed. -/
def trimLeading (l : List Nat) : List Nat := l.dropWhile (fun c => c == 32 || c == 9)

/-- The commands of a chunk: the chunk split at every newline, the piece
after the last newline dropped, each piece without its leading spaces and
tabs. -/
def chunkCommands (chunk : List Nat) : List (List Nat) :=
  ((chunk.splitOn 10).dropLast).map trimLeading

/-- A list of commands cut after its first `OFF`. -/
def upToOff : List (List Nat) → List (List Nat)
  | [] => []
  | c :: cs => if c = bytes "OFF" then [c] else c :: upToOff cs

/-- The value of a string of decimal digits. -/
def decimalValue (ds : List Nat) : Nat := Nat.ofDigits 10 ((ds.map (fun c => c - 48)).reverse)

/-- The integer a string starts with: optional white space, an optional
sign, then the longest run of decimal digits (value 0 when the run is
empty). -/
def readInt (s : List Nat) : Int :=
  match s.dropWhile isspace with
  | 45 :: r => - (decimalValue (r.takeWhile isdigit) : Int)
  | 43 :: r => (decimalValue (r.takeWhile isdigit) : Int)
  | r => (decimalValue (r.takeWhile isdigit) : Int)

/-- Whether a string starts with a number: after optional white space and
an optional sign comes a decimal digit. -/
def startsWithNumber (s : List Nat) : Bool :=
  match s.dropWhile isspace with
  | 45 :: r => isdigit (r.headD 0)
  | 43 :: r => isdigit (r.headD 0)
  | r => isdigit (r.headD 0)

/-- The two decimal digits of a number below 100. -/
def twoDigits (v : Int) : List Nat := [48 + (v / 10).toNat, 48 + (v % 10).toNat]

/-- The values `localtime` can store in the fields read. -/
def Tm.inRange (t : Tm) : Prop :=
  0 ≤ t.tm_hour ∧ t.tm_hour ≤ 23 ∧ 0 ≤ t.tm_min ∧ t.tm_min ≤ 59 ∧ 0 ≤ t.tm_sec ∧ t.tm_sec ≤ 60

/-- The writes to `opt_file` that log a list of commands. -/
def logWrites (cmds : List (List Nat)) : List FileOp :=
  cmds.map (fun c => FileOp.write (c ++ [10]))

/-- A session in which logging is on, for sample runs. -/
def loggingSession : Session :=
  { opt_period := 1, opt_scale := 0, opt_log := 1, opt_report := 1,
    last_report := 0, opt_file := [], transport := [] }

/-- A sample result of `localtime`: 09:05:07. -/
def sampleTime : Tm := { tm_hour := 9, tm_min := 5, tm_sec := 7 }

/-! ## The lexer feeds the commands of a newline-terminated chunk -/

theorem skipBlanks_eq_trimLeading (l : List Nat) : skipBlanks l = trimLeading l := rfl

theorem skipBlanks_append_nl (l rest : List Nat) :
    skipBlanks (l ++ 10 :: rest) = skipBlanks l ++ 10 :: rest := by
  induction l with
  | nil => simp [skipBlanks]
  | cons c l ih =>
    by_cases hc : (c == 32 || c == 9) = true
    · simpa [skipBlanks, List.dropWhile_cons, hc] using ih
    · simp [skipBlanks, List.dropWhile_cons, hc]

theorem skipBlanks_subset (l : List Nat) (x : Nat) (hx : x ∈ skipBlanks l) : x ∈ l :=
  (List.dropWhile_sublist _).subset hx

theorem strstr_nl (l rest : List Nat) (h : 10 ∉ l) :
    strstr (l ++ 10 :: rest) [10] = some l.length := by
  induction l with
  | nil => simp [strstr, List.isPrefixOf]
  | cons c l ih =>
    have hc : c ≠ 10 := fun e => h (by simp [e])
    have hl : 10 ∉ l := fun e => h (by simp [e])
    have hb : (10 == c) = false := by simpa using fun e => hc e.symm
    simp [strstr, List.isPrefixOf, hb, ih hl]

theorem cstr_append_nl (l rest : List Nat) (h : 0 ∉ l) :
    cstr (l ++ 10 :: rest) = l ++ 10 :: cstr rest := by
  induction l with
  | nil => simp [cstr, List.takeWhile_cons]
  | cons c l ih =>
    have hc : c ≠ 0 := fun e => h (by simp [e])
    have hl : 0 ∉ l := fun e => h (by simp [e])
    have := ih hl
    simp only [cstr] at this ⊢
    simp [List.takeWhile_cons, hc, this]

theorem cstr_of_no_nul (l : List Nat) (h : 0 ∉ l) : cstr l = l := by
  induction l with
  | nil => simp [cstr]
  | cons c l ih =>
    have hc : c ≠ 0 := fun e => h (by simp [e])
    have hl : 0 ∉ l := fun e => h (by simp [e])
    have := ih hl
    simp only [cstr] at this ⊢
    simp [List.takeWhile_cons, hc, this]

theorem lexLoop_lines {σ : Type} (handler : List Nat → σ → Outcome σ)
    (lines : List (List Nat)) (h0 : ∀ l ∈ lines, 0 ∉ l) (h10 : ∀ l ∈ lines, 10 ∉ l) :
    ∀ (fuel : Nat) (s : σ), lines.length < fuel →
      lexLoop handler fuel ((lines.map (fun l => l ++ [10])).flatten) s
        = runCommands handler (lines.map trimLeading) s := by
  induction lines with
  | nil =>
    intro fuel s hf
    cases fuel with
    | zero => omega
    | succ f => simp [lexLoop, deref, runCommands]
  | cons l ls ih =>
    intro fuel s hf
    cases fuel with
    | zero => omega
    | succ f =>
      have hl0 : 0 ∉ l := h0 l (by simp)
      have hl10 : 10 ∉ l := h10 l (by simp)
      have ih1 := ih (fun m hm => h0 m (by simp [hm])) (fun m hm => h10 m (by simp [hm]))
      have hs0 : 0 ∉ skipBlanks l := fun e => hl0 (skipBlanks_subset l 0 e)
      have hs10 : 10 ∉ skipBlanks l := fun e => hl10 (skipBlanks_subset l 10 e)
      have hd : deref (l ++ 10 :: (ls.map (fun l => l ++ [10])).flatten) ≠ 0 := by
        cases l with
        | nil => simp [deref]
        | cons c l => 
          have : c ≠ 0 := fun e => hl0 (by simp [e])
          simpa [deref] using this
      have hflat : ((l :: ls).map (fun l => l ++ [10])).flatten
          = l ++ 10 :: (ls.map (fun l => l ++ [10])).flatten := by simp
      rw [hflat, lexLoop]
      simp only [hd, if_false, skipBlanks_append_nl, cstr_append_nl _ _ hs0,
        strstr_nl _ _ hs10]
      simp only [List.take_left, List.drop_left, cstr_of_no_nul _ hs0, List.map_cons, runCommands,
        ← skipBlanks_eq_trimLeading]
      have hdrop : List.drop ((skipBlanks l).length + 1)
          (skipBlanks l ++ 10 :: (ls.map (fun l => l ++ [10])).flatten)
          = (ls.map (fun l => l ++ [10])).flatten := by
        rw [List.drop_append_eq_append_drop]
        simp
      rw [hdrop]
      cases hh : handler (skipBlanks l) s with
      | running s1 => 
        simp only []
        rw [ih1 f s1 (by simp at hf; omega)]
      | exited c s1 => rfl
      | undefined => rfl
      | outOfFuel => rfl


theorem lines_of_terminated (body : List Nat) :
    ∃ lines : List (List Nat), body ++ [10] = (lines.map (fun l => l ++ [10])).flatten ∧
      (∀ l ∈ lines, 10 ∉ l) ∧ (∀ l ∈ lines, ∀ x ∈ l, x ∈ body) := by
  induction body with
  | nil => exact ⟨[[]], by simp, by simp, by simp⟩
  | cons c b ih =>
    obtain ⟨lines, heq, h10, hsub⟩ := ih
    by_cases hc : c = 10
    · refine ⟨[] :: lines, by simp [hc, ← heq], ?_, ?_⟩
      · intro l hl
        rcases List.mem_cons.1 hl with rfl | hl
        · simp
        · exact h10 l hl
      · intro l hl x hx
        rcases List.mem_cons.1 hl with rfl | hl
        · simp at hx
        · exact List.mem_cons_of_mem _ (hsub l hl x hx)
    · cases lines with
      | nil => simp at heq
      | cons l0 ls =>
        refine ⟨(c :: l0) :: ls, ?_, ?_, ?_⟩
        · simp only [List.map_cons, List.flatten_cons] at heq ⊢
          simp [← heq]
        · intro l hl
          rcases List.mem_cons.1 hl with rfl | hl
          · intro hm
            rcases List.mem_cons.1 hm with e | hm
            · exact hc e.symm
            · exact h10 l0 (by simp) hm
          · exact h10 l (by simp [hl])
        · intro l hl x hx
          rcases List.mem_cons.1 hl with rfl | hl
          · rcases List.mem_cons.1 hx with e | hx
            · simp [e]
            · exact List.mem_cons_of_mem _ (hsub l0 (by simp) x hx)
          · exact List.mem_cons_of_mem _ (hsub l (by simp [hl]) x hx)

theorem splitOn_lines (lines : List (List Nat)) (h10 : ∀ l ∈ lines, 10 ∉ l) :
    ((lines.map (fun l => l ++ [10])).flatten).splitOn 10 = lines ++ [[]] := by
  induction lines with
  | nil => simp
  | cons l ls ih =>
    have ih1 := ih (fun m hm => h10 m (by simp [hm]))
    have hl : ∀ x ∈ l, ¬ ((fun y => y == 10) x = true) := by
      intro x hx hx10
      have : x = 10 := by simpa using hx10
      exact h10 l (by simp) (this ▸ hx)
    have hflat : ((l :: ls).map (fun l => l ++ [10])).flatten
        = l ++ 10 :: (ls.map (fun l => l ++ [10])).flatten := by simp
    rw [hflat, List.splitOn, List.splitOnP_first _ l hl 10 (by simp)]
    rw [List.splitOn] at ih1
    rw [ih1]
    simp

theorem chunkCommands_lines (lines : List (List Nat)) (h10 : ∀ l ∈ lines, 10 ∉ l) :
    chunkCommands ((lines.map (fun l => l ++ [10])).flatten) = lines.map trimLeading := by
  rw [chunkCommands, splitOn_lines lines h10]
  simp

theorem length_le_flatten (lines : List (List Nat)) :
    lines.length ≤ ((lines.map (fun l => l ++ [10])).flatten).length := by
  induction lines with
  | nil => simp
  | cons l ls ih => simp only [List.map_cons, List.flatten_cons, List.length_append, List.length_cons] at ih ⊢; omega

theorem terminated_of_getLast (chunk : List Nat) (h : chunk.getLast? = some 10) :
    ∃ body, chunk = body ++ [10] := by
  rcases List.eq_nil_or_concat chunk with rfl | ⟨b, x, rfl⟩
  · simp at h
  · refine ⟨b, ?_⟩
    simp at h
    simp [h]

/-- On a chunk without NUL whose last byte is a newline the lexer loop feeds
the commands of the chunk to its handler, in order, until one of them does
not return. -/
theorem lexLoop_eq_runCommands {σ : Type} (handler : List Nat → σ → Outcome σ)
    (chunk : List Nat) (hnul : 0 ∉ chunk) (hlast : chunk.getLast? = some 10) (s : σ) :
    lexLoop handler (chunk.length + 1) chunk s = runCommands handler (chunkCommands chunk) s := by
  obtain ⟨body, rfl⟩ := terminated_of_getLast chunk hlast
  obtain ⟨lines, heq, h10, hsub⟩ := lines_of_terminated body
  have h0 : ∀ l ∈ lines, 0 ∉ l := fun l hl hx => hnul (by simp [hsub l hl 0 hx])
  rw [heq, chunkCommands_lines lines h10]
  exact lexLoop_lines handler lines h0 h10 _ s (Nat.lt_succ_of_le (length_le_flatten lines))


/-- The bound on the iterations is never what stops the lexer: with more
fuel than bytes, a handler that does not run out of fuel gives a lexer that
does not either. -/
theorem lexLoop_fuel_suffices {σ : Type} (handler : List Nat → σ → Outcome σ)
    (hh : ∀ arg s, handler arg s ≠ Outcome.outOfFuel) :
    ∀ (fuel : Nat) (head : List Nat) (s : σ), head.length < fuel →
      lexLoop handler fuel head s ≠ Outcome.outOfFuel := by
  intro fuel
  induction fuel with
  | zero => intro head s h; omega
  | succ f ih =>
    intro head s h
    unfold lexLoop
    by_cases hd : deref head = 0
    · simp [hd]
    · simp only [hd, if_false]
      cases hs : strstr (cstr (skipBlanks head)) [10] with
      | none => simp
      | some size =>
        have hne : head ≠ [] := fun e => hd (by simp [e, deref])
        have hlen : (skipBlanks head).length ≤ head.length :=
          (List.dropWhile_sublist _).length_le
        have hdrop : ((skipBlanks head).drop (size + 1)).length < f := by
          have hpos : 0 < head.length := List.length_pos.2 hne
          rw [List.length_drop]
          omega
        simp only []
        cases hr : handler (cstr ((skipBlanks head).take size)) s with
        | running s1 => exact ih _ s1 hdrop
        | exited c s1 => simp
        | undefined => simp
        | outOfFuel => exact absurd hr (hh _ _)

/-! ## `parse_option` -/

theorem bytes_SCALE_F : bytes "SCALE=F" = [83, 67, 65, 76, 69, 61, 70] := by decide

theorem bytes_SCALE_C : bytes "SCALE=C" = [83, 67, 65, 76, 69, 61, 67] := by decide

theorem bytes_STOP : bytes "STOP" = [83, 84, 79, 80] := by decide

theorem bytes_START : bytes "START" = [83, 84, 65, 82, 84] := by decide

theorem bytes_OFF : bytes "OFF" = [79, 70, 70] := by decide

theorem bytes_PERIOD : bytes "PERIOD=" = [80, 69, 82, 73, 79, 68, 61] := by decide

/-- What `parse_option` does with `OFF`. -/
theorem parse_option_off (tm : Tm) (s : Session) :
    ∃ s1, parse_option tm (bytes "OFF") s = Outcome.exited 0 s1 ∧
      s1.transport = s.transport ++ (shutdownLine tm ++ [10]) ∧
      s1.opt_file = s.opt_file ++ (if s.opt_log ≠ 0 then
        [FileOp.write (bytes "OFF" ++ [10]), FileOp.write (shutdownLine tm ++ [10]),
          FileOp.close] else []) ∧
      s1.opt_scale = s.opt_scale ∧ s1.opt_report = s.opt_report ∧
      s1.opt_period = s.opt_period ∧ s1.opt_log = s.opt_log := by
  by_cases hlog : s.opt_log = 0
  · simp [parse_option, shut_down, log_and_print, hlog, bytes_OFF, bytes_SCALE_F,
      bytes_SCALE_C, bytes_STOP, bytes_START]
  · simp [parse_option, shut_down, log_and_print, hlog, bytes_OFF, bytes_SCALE_F,
      bytes_SCALE_C, bytes_STOP, bytes_START]

/-- Every command other than `OFF` returns; it writes nothing on the
transport, leaves `opt_log` and `last_report` alone and adds one line to the
log when logging is on. -/
theorem parse_option_returns (tm : Tm) (cmd : List Nat) (s : Session)
    (h : cmd ≠ bytes "OFF") :
    ∃ s1, parse_option tm cmd s = Outcome.running s1 ∧
      s1.transport = s.transport ∧ s1.opt_log = s.opt_log ∧
      s1.last_report = s.last_report ∧
      s1.opt_file = s.opt_file ++
        (if s.opt_log ≠ 0 then [FileOp.write (cmd ++ [10])] else []) := by
  unfold parse_option
  by_cases hlog : s.opt_log = 0 <;>
  · simp only [hlog, h, ne_eq, not_true_eq_false, not_false_eq_true, if_true, if_false]
    split_ifs
    all_goals first
      | exact ⟨_, rfl, by simp [hlog]⟩
      | (split
         · exact ⟨_, rfl, by simp [hlog]⟩
         · split <;> exact ⟨_, rfl, by simp [hlog]⟩)


theorem strstr_some_occurs (needle : List Nat) :
    ∀ (hay : List Nat) (n : Nat), strstr hay needle = some n → needle <:+: hay := by
  intro hay
  induction hay with
  | nil =>
    intro n h
    by_cases hn : needle = []
    · simp [hn]
    · simp [strstr, hn] at h
  | cons c cs ih =>
    intro n h
    by_cases hp : needle.isPrefixOf (c :: cs) = true
    · exact (List.isPrefixOf_iff_prefix.1 hp).isInfix
    · cases hm : strstr cs needle with
      | none => simp [strstr, hp, hm] at h
      | some m =>
        obtain ⟨pre, post, e⟩ := ih m hm
        exact ⟨c :: pre, post, by simp [← e]⟩

theorem strstr_period_at_start (suffix : List Nat) :
    strstr (bytes "PERIOD=" ++ suffix) (bytes "PERIOD=") = some 0 := by
  simp [bytes_PERIOD, strstr, List.isPrefixOf]

/-! ## `atoi` -/

theorem decimalValue_cons (c : Nat) (ds : List Nat) :
    decimalValue (c :: ds) = (c - 48) * 10 ^ ds.length + decimalValue ds := by
  simp [decimalValue, Nat.ofDigits_append, Nat.mul_comm, Nat.add_comm]

theorem digitsValue_eq (cs : List Nat) :
    ∀ acc : Nat, digitsValue acc cs
      = acc * 10 ^ (cs.takeWhile isdigit).length + decimalValue (cs.takeWhile isdigit) := by
  induction cs with
  | nil => intro acc; simp [digitsValue, decimalValue]
  | cons c cs ih =>
    intro acc
    by_cases hc : isdigit c = true
    · simp only [digitsValue, hc, if_true, List.takeWhile_cons, ih, decimalValue_cons,
        List.length_cons]
      ring
    · simp [digitsValue, hc, List.takeWhile_cons, decimalValue]

theorem strtol10_eq_readInt (s : List Nat) : strtol10 s = readInt s := by
  unfold strtol10 readInt
  split <;> simp [digitsValue_eq]

theorem atoi_eq_readInt (s : List Nat) (hlo : -2147483648 ≤ readInt s)
    (hhi : readInt s ≤ 2147483647) : atoi s = readInt s := by
  unfold atoi
  rw [strtol10_eq_readInt]
  have h1 : clampLong (readInt s) = readInt s := by
    unfold clampLong
    norm_num
    omega
  rw [h1]
  unfold wrapInt
  norm_num
  omega

theorem takeWhile_isdigit_nil (r : List Nat) (h : isdigit (r.headD 0) = false) :
    r.takeWhile isdigit = [] := by
  cases r with
  | nil => rfl
  | cons c r => simpa [List.takeWhile_cons] using h

theorem readInt_of_not_number (s : List Nat) (h : startsWithNumber s = false) :
    readInt s = 0 := by
  unfold startsWithNumber at h
  unfold readInt
  generalize s.dropWhile isspace = r at h
  rcases r with _ | ⟨c, r⟩
  · simp [decimalValue]
  · by_cases h45 : c = 45
    · subst h45
      simp only at h ⊢
      simp [takeWhile_isdigit_nil r h, decimalValue]
    · by_cases h43 : c = 43
      · subst h43
        simp only at h ⊢
        simp [takeWhile_isdigit_nil r h, decimalValue]
      · have h2 : isdigit ((c :: r).headD 0) = false := by
          split at h
          · rename_i heq; simp at heq; exact absurd heq.1 h45
          · rename_i heq; simp at heq; exact absurd heq.1 h43
          · exact h
        have h3 := takeWhile_isdigit_nil (c :: r) h2
        split
        · rename_i heq; simp at heq; exact absurd heq.1 h45
        · rename_i heq; simp at heq; exact absurd heq.1 h43
        · simp [h3, decimalValue]


theorem lex_input_eq_runCommands (tm : Tm) (chunk : List Nat) (hnul : 0 ∉ chunk)
    (hlast : chunk.getLast? = some 10) (s : Session) :
    lex_input tm chunk s = runCommands (parse_option tm) (chunkCommands chunk) s :=
  lexLoop_eq_runCommands (parse_option tm) chunk hnul hlast s

/-! ## The commands that set the scale and start or stop reporting -/

/-- C2: for every prior session, `parse_option` on exactly `SCALE=F` sets
`opt_scale` to 0, on `SCALE=C` to 1, on `STOP` sets `opt_report` to 0 and on
`START` to 1, each leaving the other two of scale, reporting and period as
they were; and lexing the chunk `SCALE=C\nSCALE=F\n` ends with `opt_scale`
equal to 0 (Fahrenheit) whatever it was before. -/
theorem C2_scale_start_stop (tm : Tm) (s : Session) :
    (∃ s1, parse_option tm (bytes "SCALE=F") s = Outcome.running s1 ∧ s1.opt_scale = 0 ∧
      s1.opt_report = s.opt_report ∧ s1.opt_period = s.opt_period) ∧
    (∃ s1, parse_option tm (bytes "SCALE=C") s = Outcome.running s1 ∧ s1.opt_scale = 1 ∧
      s1.opt_report = s.opt_report ∧ s1.opt_period = s.opt_period) ∧
    (∃ s1, parse_option tm (bytes "STOP") s = Outcome.running s1 ∧ s1.opt_report = 0 ∧
      s1.opt_scale = s.opt_scale ∧ s1.opt_period = s.opt_period) ∧
    (∃ s1, parse_option tm (bytes "START") s = Outcome.running s1 ∧ s1.opt_report = 1 ∧
      s1.opt_scale = s.opt_scale ∧ s1.opt_period = s.opt_period) ∧
    (∃ s2, lex_input tm (bytes "SCALE=C\nSCALE=F\n") s = Outcome.running s2 ∧
      s2.opt_scale = 0 ∧ s2.opt_report = s.opt_report ∧ s2.opt_period = s.opt_period) := by
  have hcmds : chunkCommands (bytes "SCALE=C\nSCALE=F\n") = [bytes "SCALE=C", bytes "SCALE=F"] := by
    decide
  refine ⟨?_, ?_, ?_, ?_, ?_⟩
  · by_cases hlog : s.opt_log = 0 <;>
      simp [parse_option, hlog, bytes_SCALE_F, bytes_SCALE_C, bytes_STOP, bytes_START]
  · by_cases hlog : s.opt_log = 0 <;>
      simp [parse_option, hlog, bytes_SCALE_F, bytes_SCALE_C, bytes_STOP, bytes_START]
  · by_cases hlog : s.opt_log = 0 <;>
      simp [parse_option, hlog, bytes_SCALE_F, bytes_SCALE_C, bytes_STOP, bytes_START]
  · by_cases hlog : s.opt_log = 0 <;>
      simp [parse_option, hlog, bytes_SCALE_F, bytes_SCALE_C, bytes_STOP, bytes_START]
  · rw [lex_input_eq_runCommands tm _ (by decide) (by decide), hcmds]
    by_cases hlog : s.opt_log = 0 <;>
      simp [runCommands, parse_option, hlog, bytes_SCALE_F, bytes_SCALE_C, bytes_STOP,
        bytes_START]

/-! ## `PERIOD=` -/

/-- A line that starts with `PERIOD=` stores `atoi` of what follows. -/
theorem parse_option_period (tm : Tm) (sfx : List Nat) (s : Session) :
    ∃ s1, parse_option tm (bytes "PERIOD=" ++ sfx) s = Outcome.running s1 ∧
      s1.opt_period = atoi sfx ∧ s1.opt_scale = s.opt_scale ∧
      s1.opt_report = s.opt_report ∧ s1.last_report = s.last_report := by
  have hstr := strstr_period_at_start sfx
  rw [bytes_PERIOD] at hstr
  simp only [List.cons_append, List.nil_append] at hstr
  by_cases hlog : s.opt_log = 0 <;>
    simp [parse_option, hlog, bytes_SCALE_F, bytes_SCALE_C, bytes_STOP, bytes_START,
      bytes_OFF, bytes_PERIOD, hstr]

/-- C3: for every suffix whose leading integer lies in the range of `int`,
`parse_option` on `PERIOD=` followed by the suffix returns with `opt_period`
equal to that integer (optional white space, optional sign, longest run of
digits) and `opt_scale`, `opt_report` unchanged; when the suffix does not
start with a number the period becomes 0. `PERIOD=5` gives 5 and
`PERIOD=abc` gives 0. -/
theorem C3_period_command (tm : Tm) (suffix : List Nat) (s : Session)
    (hlo : -2147483648 ≤ readInt suffix) (hhi : readInt suffix ≤ 2147483647) :
    (∃ s1, parse_option tm (bytes "PERIOD=" ++ suffix) s = Outcome.running s1 ∧
      s1.opt_period = readInt suffix ∧ s1.opt_scale = s.opt_scale ∧
      s1.opt_report = s.opt_report ∧
      (startsWithNumber suffix = false → s1.opt_period = 0)) ∧
    (∃ s2, parse_option tm (bytes "PERIOD=5") s = Outcome.running s2 ∧ s2.opt_period = 5) ∧
    (∃ s3, parse_option tm (bytes "PERIOD=abc") s = Outcome.running s3 ∧
      s3.opt_period = 0) := by
  refine ⟨?_, ?_, ?_⟩
  · obtain ⟨s1, h1, h2, h3, h4, _⟩ := parse_option_period tm suffix s
    rw [atoi_eq_readInt suffix hlo hhi] at h2
    exact ⟨s1, h1, h2, h3, h4, fun hn => by rw [h2, readInt_of_not_number suffix hn]⟩
  · obtain ⟨s2, h1, h2, _⟩ := parse_option_period tm (bytes "5") s
    exact ⟨s2, h1, by rw [h2]; decide⟩
  · obtain ⟨s3, h1, h2, _⟩ := parse_option_period tm (bytes "abc") s
    exact ⟨s3, h1, by rw [h2]; decide⟩

/-- C3 at the suffix `-12 seconds` and the initial session: the hypotheses
hold and the period becomes -12. -/
theorem C3_period_command_witness :
    (-2147483648 ≤ readInt (bytes "-12 seconds") ∧ readInt (bytes "-12 seconds") ≤ 2147483647) ∧
    ((∃ s1, parse_option sampleTime (bytes "PERIOD=" ++ bytes "-12 seconds") (initial 0)
        = Outcome.running s1 ∧
      s1.opt_period = readInt (bytes "-12 seconds") ∧ s1.opt_scale = (initial 0).opt_scale ∧
      s1.opt_report = (initial 0).opt_report ∧
      (startsWithNumber (bytes "-12 seconds") = false → s1.opt_period = 0)) ∧
    (∃ s2, parse_option sampleTime (bytes "PERIOD=5") (initial 0) = Outcome.running s2 ∧
      s2.opt_period = 5) ∧
    (∃ s3, parse_option sampleTime (bytes "PERIOD=abc") (initial 0) = Outcome.running s3 ∧
      s3.opt_period = 0)) :=
  ⟨⟨by decide, by decide⟩,
    C3_period_command sampleTime (bytes "-12 seconds") (initial 0) (by decide) (by decide)⟩


/-! ## Lines that are not commands -/

/-- C4, what the code does: `parse_option` searches `PERIOD=` with `strstr`
anywhere in the line and before it looks for `LOG `, so every line
`LOG PERIOD=` followed by a suffix stores `atoi` of the suffix in
`opt_period`. From the initial session, `LOG PERIOD=5`, which begins with
`LOG `, and `xPERIOD=5`, which is none of the exact commands and does not
begin with `PERIOD=`, both change the period from 1 to 5. -/
theorem C4_log_line_sets_period (tm : Tm) (sfx : List Nat) (s : Session) :
    (∃ s1, parse_option tm (bytes "LOG PERIOD=" ++ sfx) s = Outcome.running s1 ∧
      s1.opt_period = atoi sfx) ∧
    (bytes "LOG PERIOD=5" = bytes "LOG " ++ bytes "PERIOD=5" ∧
      parse_option sampleTime (bytes "LOG PERIOD=5") (initial 0)
        = Outcome.running { initial 0 with opt_period := 5 }) ∧
    (bytes "xPERIOD=5" ∉ [bytes "SCALE=F", bytes "SCALE=C", bytes "STOP", bytes "START",
        bytes "OFF"] ∧
      ¬ (bytes "PERIOD=" <+: bytes "xPERIOD=5") ∧
      parse_option sampleTime (bytes "xPERIOD=5") (initial 0)
        = Outcome.running { initial 0 with opt_period := 5 }) ∧
    (initial 0).opt_period = 1 := by
  refine ⟨?_, by decide, by decide, by decide⟩
  have hb : bytes "LOG PERIOD=" = [76, 79, 71, 32, 80, 69, 82, 73, 79, 68, 61] := by decide
  have hstr : strstr (76 :: 79 :: 71 :: 32 :: 80 :: 69 :: 82 :: 73 :: 79 :: 68 :: 61 :: sfx)
      [80, 69, 82, 73, 79, 68, 61] = some 4 := by
    simp [strstr, List.isPrefixOf]
  by_cases hlog : s.opt_log = 0 <;>
    simp [parse_option, hlog, hb, bytes_SCALE_F, bytes_SCALE_C, bytes_STOP, bytes_START,
      bytes_OFF, bytes_PERIOD, hstr]

/-- Where the code does leave the state alone: for every command string that
is none of `SCALE=F`, `SCALE=C`, `STOP`, `START`, `OFF` and does not contain
`PERIOD=` anywhere, `parse_option` returns with scale, reporting flag and
period unchanged (and nothing sent on the transport). -/
theorem parse_option_frame_without_period (tm : Tm) (cmd : List Nat) (s : Session)
    (h1 : cmd ≠ bytes "SCALE=F") (h2 : cmd ≠ bytes "SCALE=C") (h3 : cmd ≠ bytes "STOP")
    (h4 : cmd ≠ bytes "START") (h5 : cmd ≠ bytes "OFF")
    (hp : ¬ (bytes "PERIOD=" <:+: cmd)) :
    ∃ s1, parse_option tm cmd s = Outcome.running s1 ∧ s1.opt_scale = s.opt_scale ∧
      s1.opt_report = s.opt_report ∧ s1.opt_period = s.opt_period ∧
      s1.transport = s.transport := by
  have hnone : strstr cmd (bytes "PERIOD=") = none := by
    cases hs : strstr cmd (bytes "PERIOD=") with
    | none => rfl
    | some n => exact absurd (strstr_some_occurs _ cmd n hs) hp
  unfold parse_option
  simp only [h1, h2, h3, h4, h5, if_false, hnone]
  by_cases hlog : s.opt_log = 0 <;> split <;> simp [hlog]

/-- The frame property at the line `LOG PERIODIC check` and the initial
session. -/
theorem parse_option_frame_without_period_sample :
    ¬ (bytes "PERIOD=" <:+: bytes "LOG PERIODIC check") ∧
    ∃ s1, parse_option sampleTime (bytes "LOG PERIODIC check") (initial 0)
        = Outcome.running s1 ∧ s1.opt_scale = (initial 0).opt_scale ∧
      s1.opt_report = (initial 0).opt_report ∧ s1.opt_period = (initial 0).opt_period ∧
      s1.transport = (initial 0).transport :=
  ⟨by decide,
    parse_option_frame_without_period sampleTime (bytes "LOG PERIODIC check") (initial 0)
      (by decide) (by decide) (by decide) (by decide) (by decide) (by decide)⟩

/-! ## Logging of the command lines -/

/-- C7: for every string handed to `parse_option`, when `opt_log` is not 0
the first thing added to the log is the string followed by a newline; the
only writes that can follow it are those of the shutdown that `OFF` starts
(the `SHUTDOWN` line, then the close). When `opt_log` is 0 the log is not
touched. -/
theorem C7_command_logged_first (tm : Tm) (cmd : List Nat) (s : Session) :
    ∃ s1, (parse_option tm cmd s).final = some s1 ∧
      s1.opt_file = s.opt_file ++
        (if s.opt_log ≠ 0 then
          FileOp.write (cmd ++ [10]) ::
            (if cmd = bytes "OFF" then
              [FileOp.write (shutdownLine tm ++ [10]), FileOp.close]
            else [])
        else []) := by
  by_cases hoff : cmd = bytes "OFF"
  · subst hoff
    obtain ⟨s1, h1, _, h3, _⟩ := parse_option_off tm s
    refine ⟨s1, by rw [h1]; rfl, ?_⟩
    rw [h3]
    by_cases hlog : s.opt_log = 0 <;> simp [hlog]
  · obtain ⟨s1, h1, _, _, _, h5⟩ := parse_option_returns tm cmd s hoff
    refine ⟨s1, by rw [h1]; rfl, ?_⟩
    rw [h5]
    by_cases hlog : s.opt_log = 0 <;> simp [hlog, hoff]


/-! ## Running the commands of a chunk through `parse_option` -/

theorem upToOff_of_not_mem (cmds : List (List Nat)) (h : bytes "OFF" ∉ cmds) :
    upToOff cmds = cmds := by
  induction cmds with
  | nil => rfl
  | cons c cs ih =>
    have hc : c ≠ bytes "OFF" := fun e => h (by simp [e])
    have hcs : bytes "OFF" ∉ cs := fun e => h (by simp [e])
    simp [upToOff, hc, ih hcs]

theorem upToOff_getLast (cmds : List (List Nat)) (h : bytes "OFF" ∈ cmds) :
    (upToOff cmds).getLast? = some (bytes "OFF") := by
  induction cmds with
  | nil => simp at h
  | cons c cs ih =>
    by_cases hc : c = bytes "OFF"
    · simp [upToOff, hc]
    · have hcs : bytes "OFF" ∈ cs := by
        rcases List.mem_cons.1 h with e | e
        · exact absurd e.symm hc
        · exact e
      have ih1 := ih hcs
      simp only [upToOff, hc, if_false]
      cases hu : upToOff cs with
      | nil => simp [hu] at ih1
      | cons u us => rw [hu] at ih1; simpa [List.getLast?_cons_cons] using ih1

/-- Without `OFF` every command returns: nothing is sent and the log gets one
line per command when logging is on. -/
theorem runCommands_without_off (tm : Tm) (cmds : List (List Nat)) :
    ∀ s : Session, bytes "OFF" ∉ cmds →
      ∃ s1, runCommands (parse_option tm) cmds s = Outcome.running s1 ∧
        s1.transport = s.transport ∧ s1.opt_log = s.opt_log ∧
        s1.opt_file = s.opt_file ++ (if s.opt_log ≠ 0 then logWrites cmds else []) := by
  induction cmds with
  | nil => intro s _; exact ⟨s, rfl, rfl, rfl, by simp [logWrites]⟩
  | cons c cs ih =>
    intro s h
    have hc : c ≠ bytes "OFF" := fun e => h (by simp [e])
    have hcs : bytes "OFF" ∉ cs := fun e => h (by simp [e])
    obtain ⟨s1, h1, ht, hl, _, hf⟩ := parse_option_returns tm c s hc
    obtain ⟨s2, h2, ht2, hl2, hf2⟩ := ih s1 hcs
    refine ⟨s2, by simp [runCommands, h1, h2], by rw [ht2, ht], by rw [hl2, hl], ?_⟩
    rw [hf2, hf, hl]
    by_cases hlog : s.opt_log = 0 <;> simp [hlog, logWrites]

/-- With `OFF` among the commands the run ends in `exit(0)` at the first
one: the shutdown line is sent, and with logging on the log holds the
commands up to that `OFF`, the shutdown line and the close. -/
theorem runCommands_with_off (tm : Tm) (cmds : List (List Nat)) :
    ∀ s : Session, bytes "OFF" ∈ cmds →
      ∃ s1, runCommands (parse_option tm) cmds s = Outcome.exited 0 s1 ∧
        s1.transport = s.transport ++ (shutdownLine tm ++ [10]) ∧
        s1.opt_file = s.opt_file ++ (if s.opt_log ≠ 0 then
          logWrites (upToOff cmds) ++ [FileOp.write (shutdownLine tm ++ [10]), FileOp.close]
          else []) := by
  induction cmds with
  | nil => intro s h; simp at h
  | cons c cs ih =>
    intro s h
    by_cases hc : c = bytes "OFF"
    · subst hc
      obtain ⟨s1, h1, ht, hf, _⟩ := parse_option_off tm s
      refine ⟨s1, by simp [runCommands, h1], ht, ?_⟩
      rw [hf]
      by_cases hlog : s.opt_log = 0 <;> simp [hlog, logWrites, upToOff]
    · have hcs : bytes "OFF" ∈ cs := by
        rcases List.mem_cons.1 h with e | e
        · exact absurd e.symm hc
        · exact e
      obtain ⟨s1, h1, ht, hl, _, hf⟩ := parse_option_returns tm c s hc
      obtain ⟨s2, h2, ht2, hf2⟩ := ih s1 hcs
      refine ⟨s2, by simp [runCommands, h1, h2], by rw [ht2, ht], ?_⟩
      rw [hf2, hf, hl]
      by_cases hlog : s.opt_log = 0 <;> simp [hlog, logWrites, upToOff, hc]

/-- The calls recorded while the commands run are the commands up to the
first `OFF`. -/
theorem runCommands_recording (tm : Tm) (cmds : List (List Nat)) :
    ∀ (s : Session) (calls : List (List Nat)),
      ((runCommands (recording (parse_option tm)) cmds (s, calls)).final).map Prod.snd
        = some (calls ++ upToOff cmds) := by
  induction cmds with
  | nil => intro s calls; simp [runCommands, Outcome.final, upToOff]
  | cons c cs ih =>
    intro s calls
    by_cases hc : c = bytes "OFF"
    · subst hc
      obtain ⟨s1, h1, _⟩ := parse_option_off tm s
      simp [runCommands, recording, h1, Outcome.final, upToOff]
    · obtain ⟨s1, h1, _⟩ := parse_option_returns tm c s hc
      simp only [runCommands, recording, h1, upToOff, hc, if_false]
      rw [ih s1 (calls ++ [c])]
      simp

theorem lex_calls_eq (tm : Tm) (chunk : List Nat) (hnul : 0 ∉ chunk)
    (hlast : chunk.getLast? = some 10) (s : Session) :
    lex_calls tm chunk s = some (upToOff (chunkCommands chunk)) := by
  unfold lex_calls
  rw [lexLoop_eq_runCommands _ chunk hnul hlast, runCommands_recording]
  simp


/-! ## The lexer on newline-terminated chunks -/

/-- C1, as the claim states it, fails: the chunk `OFF\nSTOP\n` has no NUL and
ends in a newline, its pieces are `OFF` and `STOP`, but `parse_option` is
called with `OFF` only, since that call ends the process. -/
theorem C1_counterexample :
    0 ∉ bytes "OFF\nSTOP\n" ∧ (bytes "OFF\nSTOP\n").getLast? = some 10 ∧
    chunkCommands (bytes "OFF\nSTOP\n") = [bytes "OFF", bytes "STOP"] ∧
    lex_calls sampleTime (bytes "OFF\nSTOP\n") (initial 0) = some [bytes "OFF"] ∧
    lex_calls sampleTime (bytes "OFF\nSTOP\n") (initial 0)
      ≠ some (chunkCommands (bytes "OFF\nSTOP\n")) := by
  decide

/-- C1, amended: for every chunk without NUL whose last byte is a newline the
lexer loop of `main` ends (by falling out of the loop when no piece is `OFF`,
by `exit(0)` otherwise) and has called `parse_option` with exactly the
pieces of the chunk split at each newline, leading spaces and tabs removed,
in order, up to and including the first piece equal to `OFF`; all of them
when none is `OFF`. The chunk `  PERIOD=2\nOFF\n` gives `PERIOD=2`, `OFF`. -/
theorem C1_lexer_calls (tm : Tm) (chunk : List Nat) (s : Session)
    (hnul : 0 ∉ chunk) (hlast : chunk.getLast? = some 10) :
    lex_calls tm chunk s = some (upToOff (chunkCommands chunk)) ∧
    (bytes "OFF" ∉ chunkCommands chunk →
      lex_calls tm chunk s = some (chunkCommands chunk) ∧
      ∃ s1, lex_input tm chunk s = Outcome.running s1) ∧
    (bytes "OFF" ∈ chunkCommands chunk → ∃ s1, lex_input tm chunk s = Outcome.exited 0 s1) ∧
    lex_calls tm (bytes "  PERIOD=2\nOFF\n") s = some [bytes "PERIOD=2", bytes "OFF"] := by
  refine ⟨lex_calls_eq tm chunk hnul hlast s, ?_, ?_, ?_⟩
  · intro hoff
    refine ⟨?_, ?_⟩
    · rw [lex_calls_eq tm chunk hnul hlast s, upToOff_of_not_mem _ hoff]
    · rw [lex_input_eq_runCommands tm chunk hnul hlast]
      obtain ⟨s1, h1, _⟩ := runCommands_without_off tm _ s hoff
      exact ⟨s1, h1⟩
  · intro hoff
    rw [lex_input_eq_runCommands tm chunk hnul hlast]
    obtain ⟨s1, h1, _⟩ := runCommands_with_off tm _ s hoff
    exact ⟨s1, h1⟩
  · rw [lex_calls_eq tm _ (by decide) (by decide) s]
    decide

/-- C1 amended, at the chunk ` START\n\tLOG a b\n` and the initial session. -/
theorem C1_lexer_calls_witness :
    (0 ∉ bytes " START\n\tLOG a b\n" ∧ (bytes " START\n\tLOG a b\n").getLast? = some 10) ∧
    (lex_calls sampleTime (bytes " START\n\tLOG a b\n") (initial 0)
        = some (upToOff (chunkCommands (bytes " START\n\tLOG a b\n"))) ∧
    (bytes "OFF" ∉ chunkCommands (bytes " START\n\tLOG a b\n") →
      lex_calls sampleTime (bytes " START\n\tLOG a b\n") (initial 0)
          = some (chunkCommands (bytes " START\n\tLOG a b\n")) ∧
      ∃ s1, lex_input sampleTime (bytes " START\n\tLOG a b\n") (initial 0)
          = Outcome.running s1) ∧
    (bytes "OFF" ∈ chunkCommands (bytes " START\n\tLOG a b\n") →
      ∃ s1, lex_input sampleTime (bytes " START\n\tLOG a b\n") (initial 0)
          = Outcome.exited 0 s1) ∧
    lex_calls sampleTime (bytes "  PERIOD=2\nOFF\n") (initial 0)
        = some [bytes "PERIOD=2", bytes "OFF"]) :=
  ⟨⟨by decide, by decide⟩,
    C1_lexer_calls sampleTime (bytes " START\n\tLOG a b\n") (initial 0) (by decide) (by decide)⟩

/-! ## `OFF` -/

theorem fmt02d_two_digits : ∀ n : Fin 100, fmt02d (n.val : Int) = twoDigits (n.val : Int) := by
  decide

theorem fmt02d_of_range (v : Int) (h0 : 0 ≤ v) (h1 : v ≤ 99) : fmt02d v = twoDigits v := by
  obtain ⟨n, rfl⟩ := Int.eq_ofNat_of_zero_le h0
  have hn : n < 100 := by omega
  exact fmt02d_two_digits ⟨n, hn⟩

theorem shutdownLine_of_range (tm : Tm) (h : tm.inRange) :
    shutdownLine tm = twoDigits tm.tm_hour ++ [58] ++ twoDigits tm.tm_min ++ [58] ++
      twoDigits tm.tm_sec ++ bytes " SHUTDOWN" := by
  obtain ⟨h1, h2, h3, h4, h5, h6⟩ := h
  unfold shutdownLine
  rw [fmt02d_of_range _ h1 (by omega), fmt02d_of_range _ h3 (by omega),
    fmt02d_of_range _ h5 (by omega)]


/-- C6, as the claim states it, fails in two ways. A NUL byte ends the C
string the lexer reads: the chunk NUL, newline, `OFF`, newline ends in a
newline and has `OFF` as its second piece, but the loop stops at once and
the session goes on unchanged. And when logging is off, `OFF\n` ends the
process with the shutdown line sent but nothing written to the log and no
close. -/
theorem C6_counterexample :
    (([0, 10] ++ bytes "OFF\n").getLast? = some 10 ∧
      bytes "OFF" ∈ chunkCommands ([0, 10] ++ bytes "OFF\n") ∧
      lex_input sampleTime ([0, 10] ++ bytes "OFF\n") loggingSession
        = Outcome.running loggingSession) ∧
    ((bytes "OFF\n").getLast? = some 10 ∧ bytes "OFF" ∈ chunkCommands (bytes "OFF\n") ∧
      lex_input sampleTime (bytes "OFF\n") (initial 0)
        = Outcome.exited 0 { initial 0 with transport := bytes "09:05:07 SHUTDOWN\n" } ∧
      (initial 0).opt_file = []) := by
  decide

/-- C6, amended: for every chunk without NUL whose last byte is a newline and
in which `OFF` occurs as a command, the lexer ends in `exit(0)` at the first
`OFF`. The shutdown line and a newline are sent on the transport. When
logging is on, the log receives the commands up to and including that `OFF`,
then the shutdown line, then the close, and nothing after it; when logging
is off the log is left alone. `parse_option` is called with no command after
that `OFF`. For field values `localtime` can give, the shutdown line is
`HH:MM:SS SHUTDOWN` with two digits each. -/
theorem C6_off_is_terminal (tm : Tm) (chunk : List Nat) (s : Session)
    (hnul : 0 ∉ chunk) (hlast : chunk.getLast? = some 10)
    (hoff : bytes "OFF" ∈ chunkCommands chunk) :
    (∃ s1, lex_input tm chunk s = Outcome.exited 0 s1 ∧
      s1.transport = s.transport ++ (shutdownLine tm ++ [10]) ∧
      s1.opt_file = s.opt_file ++ (if s.opt_log ≠ 0 then
        logWrites (upToOff (chunkCommands chunk)) ++
          [FileOp.write (shutdownLine tm ++ [10]), FileOp.close]
        else [])) ∧
    lex_calls tm chunk s = some (upToOff (chunkCommands chunk)) ∧
    (upToOff (chunkCommands chunk)).getLast? = some (bytes "OFF") ∧
    (tm.inRange → shutdownLine tm = twoDigits tm.tm_hour ++ [58] ++ twoDigits tm.tm_min ++
      [58] ++ twoDigits tm.tm_sec ++ bytes " SHUTDOWN") := by
  refine ⟨?_, lex_calls_eq tm chunk hnul hlast s, upToOff_getLast _ hoff,
    shutdownLine_of_range tm⟩
  rw [lex_input_eq_runCommands tm chunk hnul hlast]
  exact runCommands_with_off tm _ s hoff

/-- C6 amended, at the chunk `STOP\nOFF\nSTART\n` with logging on, at
09:05:07. -/
theorem C6_off_is_terminal_witness :
    (0 ∉ bytes "STOP\nOFF\nSTART\n" ∧ (bytes "STOP\nOFF\nSTART\n").getLast? = some 10 ∧
      bytes "OFF" ∈ chunkCommands (bytes "STOP\nOFF\nSTART\n")) ∧
    ((∃ s1, lex_input sampleTime (bytes "STOP\nOFF\nSTART\n") loggingSession
        = Outcome.exited 0 s1 ∧
      s1.transport = loggingSession.transport ++ (shutdownLine sampleTime ++ [10]) ∧
      s1.opt_file = loggingSession.opt_file ++ (if loggingSession.opt_log ≠ 0 then
        logWrites (upToOff (chunkCommands (bytes "STOP\nOFF\nSTART\n"))) ++
          [FileOp.write (shutdownLine sampleTime ++ [10]), FileOp.close]
        else [])) ∧
    lex_calls sampleTime (bytes "STOP\nOFF\nSTART\n") loggingSession
      = some (upToOff (chunkCommands (bytes "STOP\nOFF\nSTART\n"))) ∧
    (upToOff (chunkCommands (bytes "STOP\nOFF\nSTART\n"))).getLast? = some (bytes "OFF") ∧
    (sampleTime.inRange → shutdownLine sampleTime = twoDigits sampleTime.tm_hour ++ [58] ++
      twoDigits sampleTime.tm_min ++ [58] ++ twoDigits sampleTime.tm_sec ++
      bytes " SHUTDOWN")) :=
  ⟨⟨by decide, by decide, by decide⟩,
    C6_off_is_terminal sampleTime (bytes "STOP\nOFF\nSTART\n") loggingSession (by decide)
      (by decide) (by decide)⟩

/-! ## Chunks without a newline -/

theorem strstr_nl_none (l : List Nat) (h : 10 ∉ l) : strstr l [10] = none := by
  cases hs : strstr l [10] with
  | none => rfl
  | some n =>
    obtain ⟨pre, post, e⟩ := strstr_some_occurs [10] l n hs
    exact absurd (by simp [← e]) h

/-- C8, what the code does: on every chunk that has no newline and does not
start with NUL, the lexer gets NULL from `strstr` and computes
`tail - head` with it, which is undefined; no partial line is kept. -/
theorem C8_no_newline_is_undefined (tm : Tm) (chunk : List Nat) (s : Session)
    (hfirst : deref chunk ≠ 0) (hnl : 10 ∉ chunk) :
    lex_input tm chunk s = Outcome.undefined := by
  have h1 : 10 ∉ cstr (skipBlanks chunk) := fun e =>
    hnl (skipBlanks_subset chunk 10 ((List.takeWhile_sublist _).subset e))
  simp [lex_input, lexLoop, hfirst, strstr_nl_none _ h1]

/-- C8 at the chunk `PERIOD=3` and the initial session: the lexer runs into
undefined behaviour; a following chunk made of the newline alone is lexed as
one empty command and leaves the period at 1, whereas the chunk `PERIOD=3\n`
sets it to 3. -/
theorem C8_no_newline_is_undefined_witness :
    (deref (bytes "PERIOD=3") ≠ 0 ∧ 10 ∉ bytes "PERIOD=3") ∧
    lex_input sampleTime (bytes "PERIOD=3") (initial 0) = Outcome.undefined ∧
    lex_input sampleTime (bytes "\n") (initial 0) = Outcome.running (initial 0) ∧
    lex_input sampleTime (bytes "PERIOD=3\n") (initial 0)
      = Outcome.running { initial 0 with opt_period := 3 } :=
  ⟨⟨by decide, by decide⟩,
    C8_no_newline_is_undefined sampleTime (bytes "PERIOD=3") (initial 0) (by decide) (by decide),
    by decide, by decide⟩


/-! ## The report step -/

theorem report_tick_due {D : Type} (A : DoubleArith D) (k : Tick) (s : Session)
    (h1 : s.opt_report = 1) (h2 : s.opt_period ≤ k.current - s.last_report) :
    report_tick A k s
      = { log_and_print (reportLine A k s.opt_scale) s with last_report := k.now } := by
  simp [report_tick, h1, h2]

theorem report_tick_idle {D : Type} (A : DoubleArith D) (k : Tick) (s : Session)
    (h : ¬ (s.opt_report = 1 ∧ s.opt_period ≤ k.current - s.last_report)) :
    report_tick A k s = s := by
  simp only [report_tick, h, if_false]

theorem log_and_print_transport (line : List Nat) (s : Session) :
    (log_and_print line s).transport = s.transport ++ (line ++ [10]) := by
  by_cases hlog : s.opt_log = 0 <;> simp [log_and_print, hlog]

theorem run_ticks_stopped {D : Type} (A : DoubleArith D) (ks : List Tick) (s : Session)
    (h : s.opt_report ≠ 1) : run_ticks A ks s = s := by
  induction ks with
  | nil => rfl
  | cons k ks ih =>
    have hk : report_tick A k s = s := report_tick_idle A k s (fun c => h c.1)
    simp [run_ticks, hk, ih]

theorem parse_option_stop (tm : Tm) (s : Session) :
    ∃ s1, parse_option tm (bytes "STOP") s = Outcome.running s1 ∧ s1.opt_report = 0 ∧
      s1.opt_period = s.opt_period ∧ s1.last_report = s.last_report := by
  by_cases hlog : s.opt_log = 0 <;>
    simp [parse_option, hlog, bytes_SCALE_F, bytes_SCALE_C, bytes_STOP, bytes_START]

theorem parse_option_start (tm : Tm) (s : Session) :
    ∃ s1, parse_option tm (bytes "START") s = Outcome.running s1 ∧ s1.opt_report = 1 ∧
      s1.opt_period = s.opt_period ∧ s1.last_report = s.last_report := by
  by_cases hlog : s.opt_log = 0 <;>
    simp [parse_option, hlog, bytes_SCALE_F, bytes_SCALE_C, bytes_STOP, bytes_START]

/-- C5: a tick of the loop sends a report exactly when `opt_report` is 1 and
`current - last_report` is at least `opt_period`. When it does, the report
line goes through `log_and_print` and `last_report` becomes the time read by
`time(&last_report)`; when it does not, the session, `last_report` included,
is unchanged. Hence after `STOP` no sequence of ticks sends anything, and
after a later `START`, which keeps `last_report` and the period, a tick for
which the elapsed time is at least the period sends a report. -/
theorem C5_report_schedule {D : Type} (A : DoubleArith D) (tm : Tm) (k : Tick)
    (s : Session) :
    ((report_tick A k s).transport ≠ s.transport ↔
      (s.opt_report = 1 ∧ s.opt_period ≤ k.current - s.last_report)) ∧
    ((s.opt_report = 1 ∧ s.opt_period ≤ k.current - s.last_report) →
      (report_tick A k s).transport = s.transport ++ (reportLine A k s.opt_scale ++ [10]) ∧
      (report_tick A k s).last_report = k.now) ∧
    (¬ (s.opt_report = 1 ∧ s.opt_period ≤ k.current - s.last_report) →
      report_tick A k s = s) ∧
    (∃ s1 s2, parse_option tm (bytes "STOP") s = Outcome.running s1 ∧
      (∀ ks : List Tick, run_ticks A ks s1 = s1) ∧
      parse_option tm (bytes "START") s1 = Outcome.running s2 ∧
      s2.last_report = s.last_report ∧ s2.opt_period = s.opt_period ∧
      (s.opt_period ≤ k.current - s.last_report →
        (report_tick A k s2).transport
          = s2.transport ++ (reportLine A k s2.opt_scale ++ [10]) ∧
        (report_tick A k s2).last_report = k.now)) := by
  have hdue : ∀ t : Session, (t.opt_report = 1 ∧ t.opt_period ≤ k.current - t.last_report) →
      (report_tick A k t).transport = t.transport ++ (reportLine A k t.opt_scale ++ [10]) ∧
      (report_tick A k t).last_report = k.now := by
    intro t h
    rw [report_tick_due A k t h.1 h.2]
    exact ⟨log_and_print_transport _ t, rfl⟩
  refine ⟨?_, hdue s, report_tick_idle A k s, ?_⟩
  · constructor
    · intro hne
      by_contra hc
      exact hne (by rw [report_tick_idle A k s hc])
    · intro h
      rw [(hdue s h).1]
      simp
  · obtain ⟨s1, h1, hr1, hp1, hl1⟩ := parse_option_stop tm s
    obtain ⟨s2, h2, hr2, hp2, hl2⟩ := parse_option_start tm s1
    refine ⟨s1, s2, h1, fun ks => run_ticks_stopped A ks s1 (by rw [hr1]; decide), h2,
      by rw [hl2, hl1], by rw [hp2, hp1], ?_⟩
    intro hel
    exact hdue s2 ⟨hr2, by rw [hp2, hp1, hl2, hl1]; exact hel⟩

/-- C5 at a session that last reported at second 100 with period 1, and a
tick at second 107. -/
theorem C5_report_schedule_witness :
    (((report_tick ratArith ⟨107, sampleTime, 100, 107⟩ (initial 100)).transport
        ≠ (initial 100).transport ↔
      ((initial 100).opt_report = 1 ∧
        (initial 100).opt_period ≤ (107 : Int) - (initial 100).last_report)) ∧
    (((initial 100).opt_report = 1 ∧
        (initial 100).opt_period ≤ (107 : Int) - (initial 100).last_report) →
      (report_tick ratArith ⟨107, sampleTime, 100, 107⟩ (initial 100)).transport
        = (initial 100).transport ++
          (reportLine ratArith ⟨107, sampleTime, 100, 107⟩ (initial 100).opt_scale ++ [10]) ∧
      (report_tick ratArith ⟨107, sampleTime, 100, 107⟩ (initial 100)).last_report = 107) ∧
    (¬ ((initial 100).opt_report = 1 ∧
        (initial 100).opt_period ≤ (107 : Int) - (initial 100).last_report) →
      report_tick ratArith ⟨107, sampleTime, 100, 107⟩ (initial 100) = initial 100) ∧
    (∃ s1 s2, parse_option sampleTime (bytes "STOP") (initial 100) = Outcome.running s1 ∧
      (∀ ks : List Tick, run_ticks ratArith ks s1 = s1) ∧
      parse_option sampleTime (bytes "START") s1 = Outcome.running s2 ∧
      s2.last_report = (initial 100).last_report ∧ s2.opt_period = (initial 100).opt_period ∧
      ((initial 100).opt_period ≤ (107 : Int) - (initial 100).last_report →
        (report_tick ratArith ⟨107, sampleTime, 100, 107⟩ s2).transport
          = s2.transport ++ (reportLine ratArith ⟨107, sampleTime, 100, 107⟩ s2.opt_scale ++ [10]) ∧
        (report_tick ratArith ⟨107, sampleTime, 100, 107⟩ s2).last_report = 107))) ∧
    ((initial 100).opt_report = 1 ∧
      (initial 100).opt_period ≤ (107 : Int) - (initial 100).last_report) :=
  ⟨C5_report_schedule ratArith sampleTime ⟨107, sampleTime, 100, 107⟩ (initial 100),
    by decide⟩

/-- C10: with `opt_period` at most 0, reporting on and `current` not before
`last_report`, the tick sends a report, and `PERIOD=abc` is one way to get
such a period (it stores 0); with `opt_period` at least 1, a tick whose
`current` is the second of the last report leaves the session as it is. -/
theorem C10_nonpositive_period {D : Type} (A : DoubleArith D) (tm : Tm) (k : Tick)
    (s : Session) :
    (s.opt_period ≤ 0 → s.opt_report = 1 → s.last_report ≤ k.current →
      (report_tick A k s).transport = s.transport ++ (reportLine A k s.opt_scale ++ [10]) ∧
      (report_tick A k s).last_report = k.now) ∧
    (1 ≤ s.opt_period → k.current = s.last_report → report_tick A k s = s) ∧
    (∃ s1, parse_option tm (bytes "PERIOD=abc") s = Outcome.running s1 ∧ s1.opt_period = 0 ∧
      s1.opt_report = s.opt_report ∧ s1.last_report = s.last_report) := by
  refine ⟨?_, ?_, ?_⟩
  · intro hp hr hc
    rw [report_tick_due A k s hr (by omega)]
    exact ⟨log_and_print_transport _ s, rfl⟩
  · intro hp hc
    exact report_tick_idle A k s (fun h => by omega)
  · obtain ⟨s1, h1, h2, _, h4, h5⟩ := parse_option_period tm (bytes "abc") s
    exact ⟨s1, h1, by rw [h2]; decide, h4, h5⟩

/-- C10 at period 0, last report at second 100, tick in the same second. -/
theorem C10_nonpositive_period_witness :
    ((({ initial 100 with opt_period := 0 } : Session).opt_period ≤ 0 ∧
      ({ initial 100 with opt_period := 0 } : Session).opt_report = 1 ∧
      ({ initial 100 with opt_period := 0 } : Session).last_report ≤ (100 : Int)) ∧
    (report_tick ratArith ⟨100, sampleTime, 100, 100⟩
        { initial 100 with opt_period := 0 }).transport
      = ({ initial 100 with opt_period := 0 } : Session).transport ++
        (reportLine ratArith ⟨100, sampleTime, 100, 100⟩ 0 ++ [10]) ∧
    (report_tick ratArith ⟨100, sampleTime, 100, 100⟩
        { initial 100 with opt_period := 0 }).last_report = 100) ∧
    ((1 ≤ (initial 100).opt_period ∧ (100 : Int) = (initial 100).last_report) ∧
      report_tick ratArith ⟨100, sampleTime, 100, 100⟩ (initial 100) = initial 100) :=
  ⟨⟨by decide,
      (C10_nonpositive_period ratArith sampleTime ⟨100, sampleTime, 100, 100⟩
        { initial 100 with opt_period := 0 }).1 (by decide) (by decide) (by decide)⟩,
    ⟨by decide,
      (C10_nonpositive_period ratArith sampleTime ⟨100, sampleTime, 100, 100⟩
        (initial 100)).2.1 (by decide) (by decide)⟩⟩

/-! ## `parse_reading` -/

/-- C9: for every raw sample strictly between 0 and 1023 and every
interpretation of the `double` operations, `parse_reading` with
`opt_scale = 0` (Fahrenheit) is `parse_reading` with `opt_scale = 1`
(Celsius) times 9, divided by 5, plus 32, as the C expression
`C * 9. / 5. + 32` computes it. -/
theorem C9_fahrenheit_of_celsius {D : Type} (A : DoubleArith D) (r : Int)
    (_hlo : 0 < r) (_hhi : r < 1023) :
    parse_reading A 0 r
      = A.add (A.div (A.mul (parse_reading A 1 r) (A.lit 9)) (A.lit 5)) (A.ofInt 32) := by
  simp [parse_reading]

/-- C9 at the sample 100 (the value the `PC` build uses), in exact rational
arithmetic. -/
theorem C9_fahrenheit_of_celsius_witness :
    ((0 : Int) < 100 ∧ (100 : Int) < 1023) ∧
    parse_reading ratArith 0 100
      = ratArith.add (ratArith.div (ratArith.mul (parse_reading ratArith 1 100)
          (ratArith.lit 9)) (ratArith.lit 5)) (ratArith.ofInt 32) :=
  ⟨by decide, C9_fahrenheit_of_celsius ratArith 100 (by decide) (by decide)⟩

end Lab4c
